import Mathlib

/-!
Shallow embedding of the Myrtille bridge in `src/client/Windows/wf_myrtille.cpp`
(FreeRDP Windows client, Myrtille fork) together with proofs about its
specification.  The embedding follows the source file function by function:

* the region consolidator / ips throttle of `wf_myrtille_send_region`,
* the codec selection and quality logic of `processImage`,
* the sequence-index management of `processImage` / `wf_myrtille_send_cursor`,
* the wire framing of `sendImage` / `int32ToBytes` / `bytesToInt32`,
* the aspect-ratio logic of `processResizeDisplay`,
* the input command reader / dispatcher of `processInputsPipe`.

Machine integers (`int`, `LONG`) are modelled as `Int` with the relevant
bounds (`INT_MAX`) made explicit; `float` arithmetic of the resize path is
modelled by exact rationals with the float-to-int truncation made explicit.
C++ calls that throw an uncaught exception (std::stoi on a non-numeric
argument, std::string::substr past the end) make the modelled handler return
`none` (the process terminates there).
-/

namespace Myrtille

/-- `INT_MAX` of the 32-bit `int` used by the counters in `wf_myrtille`. -/
def INT_MAX : Int := 2147483647

/-- A `RECT` as used by `wf_myrtille_send_region` and the `imageBuffer`
accumulator (fields are C `LONG` values). -/
structure MRect where
  left : Int
  top : Int
  right : Int
  bottom : Int
deriving Repr, DecidableEq

/-- The "unset" image buffer: all four bounds are the sentinel -1
(`wf_myrtille_start`, lines 293-296). -/
def unsetRect : MRect := ⟨-1, -1, -1, -1⟩

/-- A rectangle has all coordinates ≥ 0. -/
def MRect.nonneg (r : MRect) : Prop :=
  0 ≤ r.left ∧ 0 ≤ r.top ∧ 0 ≤ r.right ∧ 0 ≤ r.bottom

instance (r : MRect) : Decidable r.nonneg := by
  unfold MRect.nonneg; infer_instance

/-- The consistency check of `wf_myrtille_send_region` (lines 514-517):
the region is rejected when any coordinate is negative, exceeds the desktop
width/height, or the rectangle is degenerate. -/
def regionRejected (dw dh : Int) (region : MRect) : Prop :=
  region.left < 0 ∨ region.left > dw ∨ region.top < 0 ∨ region.top > dh ∨
  region.right < 0 ∨ region.right > dw ∨ region.bottom < 0 ∨ region.bottom > dh ∨
  region.left > region.right ∨ region.top > region.bottom

instance (dw dh : Int) (r : MRect) : Decidable (regionRejected dw dh r) := by
  unfold regionRejected; infer_instance

/-- Extending the `imageBuffer` accumulator with a new region
(`wf_myrtille_send_region`, lines 536-546): each bound is replaced when it is
the -1 sentinel or when the new region extends past it. -/
def accumBuf (buf : MRect) (region : MRect) : MRect :=
  { top := if buf.top = -1 ∨ region.top < buf.top then region.top else buf.top
    left := if buf.left = -1 ∨ region.left < buf.left then region.left else buf.left
    bottom := if buf.bottom = -1 ∨ region.bottom > buf.bottom then region.bottom else buf.bottom
    right := if buf.right = -1 ∨ region.right > buf.right then region.right else buf.right }

/-- Mutable state of the ips regulator: the `imageCount` event counter and the
`imageBuffer` consolidated region of `wf_myrtille`. -/
structure ThrottleState where
  imageCount : Int
  buf : MRect
deriving Repr, DecidableEq

/-- State of the throttle at session start (`wf_myrtille_start`). -/
def initThrottle : ThrottleState := ⟨0, unsetRect⟩

/-- The ips regulator of `wf_myrtille_send_region` (lines 519-566), after the
consistency check: reset the counter at `INT_MAX`, increment it, and when the
image quantity is one of 5/10/20/25/50 extend the accumulator and forward the
consolidated region only when the counter is a multiple of `100 / quantity`
(resetting the accumulator on a forward).  Other quantities (100 in
particular) forward every region unmodified.  The returned option is the
region handed to the capture/encode stage (`processImage`), `none` when the
event is dropped.  (`/` and `%` here agree with C's truncated division and
remainder on the operands that occur: the quantity and the incremented
counter are positive in every reachable state.) -/
def sendRegionStep (imageQuantity : Int) (s : ThrottleState) (region : MRect) :
    ThrottleState × Option MRect :=
  let count0 : Int := if s.imageCount = INT_MAX then 0 else s.imageCount
  let count : Int := count0 + 1
  if imageQuantity = 5 ∨ imageQuantity = 10 ∨ imageQuantity = 20 ∨
      imageQuantity = 25 ∨ imageQuantity = 50 then
    let buf := accumBuf s.buf region
    if count % (100 / imageQuantity) ≠ 0 then
      (⟨count, buf⟩, none)
    else
      let fwd := if buf.top ≠ -1 ∧ buf.left ≠ -1 ∧ buf.bottom ≠ -1 ∧ buf.right ≠ -1
        then buf else region
      (⟨count, unsetRect⟩, some fwd)
  else
    (⟨count, s.buf⟩, some region)

/-- `wf_myrtille_send_region` (lines 502-641) up to the hand-off to
`processImage`: the consistency check followed by the ips regulator.  `dw`/`dh`
are the desktop width/height from the settings. -/
def wfSendRegion (dw dh : Int) (imageQuantity : Int) (s : ThrottleState)
    (region : MRect) : ThrottleState × Option MRect :=
  if regionRejected dw dh region then (s, none)
  else sendRegionStep imageQuantity s region

/-- Iterating `wfSendRegion` over a sequence of region events, collecting the
regions forwarded to the encoding stage. -/
def runRegions (dw dh : Int) (imageQuantity : Int) (s : ThrottleState) :
    List MRect → ThrottleState × List MRect
  | [] => (s, [])
  | e :: rest =>
    let p := wfSendRegion dw dh imageQuantity s e
    let q := runRegions dw dh imageQuantity p.1 rest
    (q.1, p.2.toList ++ q.2)

/-- Bounding union of two rectangles. -/
def rectUnion (a b : MRect) : MRect :=
  ⟨min a.left b.left, min a.top b.top, max a.right b.right, max a.bottom b.bottom⟩

/-- Bounding union of a head rectangle and a list of further rectangles. -/
def boundingRect (r : MRect) : List MRect → MRect
  | [] => r
  | e :: rest => boundingRect (rectUnion r e) rest

/-- Reference grouping of a stream of region events: the bounding union of
each consecutive complete group of `n` events (a trailing partial group
produces nothing). -/
def chunksUnion (n : Nat) (evs : List MRect) : List MRect :=
  match evs with
  | [] => []
  | e :: rest =>
    if h : 0 < n ∧ n ≤ rest.length + 1 then
      boundingRect e (rest.take (n - 1)) :: chunksUnion n (rest.drop (n - 1))
    else []
termination_by evs.length
decreasing_by
  simp only [List.length_cons, List.length_drop]
  omega

/-! ### Adaptive encoding pipeline (`processImage`) -/

/-- `IMAGE_ENCODING` enumeration: AUTO = 0, PNG = 1, JPEG = 2, WEBP = 3. -/
def ENC_AUTO : Int := 0
def ENC_PNG : Int := 1
def ENC_JPEG : Int := 2
def ENC_WEBP : Int := 3

/-- `IMAGE_FORMAT` enumeration: CUR = 0, PNG = 1, JPEG = 2, WEBP = 3. -/
def FMT_CUR : Int := 0
def FMT_PNG : Int := 1
def FMT_JPEG : Int := 2
def FMT_WEBP : Int := 3

/-- The quality computed at the top of `processImage` (line 1631): PNG mode
always uses the lossless maximum (`IMAGE_QUALITY::HIGHEST` = 100); otherwise a
fullscreen update in adaptive mode forces `IMAGE_QUALITY::HIGHER` = 75 and any
other update uses the client-set `imageQuality`. -/
def effQuality (imageEncoding imageQuality : Int) (fullscreen adaptive : Bool) : Int :=
  if imageEncoding = ENC_PNG then 100
  else if fullscreen ∧ adaptive then 75
  else imageQuality

/-- Which codecs `processImage` runs, as (png, jpeg, webp): PNG runs in PNG and
AUTO modes (line 1648), JPEG in JPEG and AUTO modes (line 1659), WebP in WEBP
mode only (line 1688). -/
def encodersRun (imageEncoding : Int) : Bool × Bool × Bool :=
  (imageEncoding = ENC_PNG ∨ imageEncoding = ENC_AUTO,
   imageEncoding = ENC_JPEG ∨ imageEncoding = ENC_AUTO,
   imageEncoding = ENC_WEBP)

/-- Codec selection and send decision of `processImage` (lines 1641-1727),
abstracted over the byte sizes that the codecs report (`statstg.cbSize`; a
failed `Save` leaves an empty stream, i.e. size 0).  Returns the
(format, quality, size) of the image message handed to `sendImage`, or `none`
when no message is written (`stream == NULL || size == 0`). -/
def processImageSelect (imageEncoding imageQuality : Int) (fullscreen adaptive : Bool)
    (pngSize jpgSize webpSize : Nat) : Option (Int × Int × Nat) :=
  let quality := effQuality imageEncoding imageQuality fullscreen adaptive
  if imageEncoding = ENC_PNG ∨ imageEncoding = ENC_JPEG ∨ imageEncoding = ENC_AUTO then
    let png := if imageEncoding = ENC_PNG ∨ imageEncoding = ENC_AUTO then pngSize else 0
    let jpg := if imageEncoding = ENC_JPEG ∨ imageEncoding = ENC_AUTO then jpgSize else 0
    if imageEncoding = ENC_PNG ∨ (imageEncoding = ENC_AUTO ∧ png ≤ jpg) then
      if 0 < png then some (FMT_PNG, 100, png) else none
    else
      if 0 < jpg then some (FMT_JPEG, quality, jpg) else none
  else if imageEncoding = ENC_WEBP then
    if 0 < webpSize then some (FMT_WEBP, quality, webpSize) else none
  else none

/-! ### Sequence index (`processImage` lines 1705-1727, `wf_myrtille_send_cursor`
lines 742-762) -/

/-- One pass of the shared `imageIdx` logic: the counter is reset to 0 when it
already equals `INT_MAX`, and pre-incremented (`++myrtille->imageIdx`) exactly
when an image is actually written (`stream != NULL && size > 0` in
`processImage`, `pngStream != NULL && pngSize > 0` in the cursor path).
Returns the new counter value and the index carried by the sent image, if
any. -/
def nextImageIdx (imageIdx : Int) (sendHappens : Bool) : Int × Option Int :=
  let idx0 : Int := if imageIdx = INT_MAX then 0 else imageIdx
  if sendHappens then (idx0 + 1, some (idx0 + 1)) else (idx0, none)

/-! ### Outbound image framing (`sendImage`, `int32ToBytes`, `bytesToInt32`) -/

/-- `int32ToBytes` (lines 1971-1978): little-endian serialization of a C `int`
(two's complement) into four bytes. -/
def int32ToBytes (value : Int) : List Nat :=
  let n : Nat := (value % 4294967296).toNat
  [n % 256, n / 256 % 256, n / 65536 % 256, n / 16777216 % 256]

/-- `bytesToInt32` (lines 1980-1988): little-endian decoding of four bytes
into a C `int` (two's complement reinterpretation of the 32-bit pattern). -/
def bytesToInt32 (bytes : List Nat) : Int :=
  let u : Nat := bytes.getD 0 0 + bytes.getD 1 0 * 256 + bytes.getD 2 0 * 65536 +
    bytes.getD 3 0 * 16777216
  if u < 2147483648 then (u : Int) else (u : Int) - 4294967296

/-- The byte string written to the updates pipe by `sendImage`
(lines 1794-1842): a 40-byte header — total length (= payload size + 36),
tag 0, index, position, dimensions, format, quality, fullscreen flag, each as
a little-endian 32-bit integer — followed by the encoded payload. -/
def sendImageBytes (idx posX posY width height format quality : Int)
    (fullscreen : Bool) (payload : List Nat) : List Nat :=
  int32ToBytes ((payload.length : Int) + 36) ++
  int32ToBytes 0 ++
  int32ToBytes idx ++
  int32ToBytes posX ++
  int32ToBytes posY ++
  int32ToBytes width ++
  int32ToBytes height ++
  int32ToBytes format ++
  int32ToBytes quality ++
  int32ToBytes (if fullscreen then 1 else 0) ++
  payload

/-! ### Aspect-ratio-locked resize (`processResizeDisplay`, lines 1477-1511) -/

/-- The `keepAspectRatio` arithmetic of `processResizeDisplay`
(lines 1486-1503), with the C `float` arithmetic modelled by exact rationals
and the implicit float-to-int conversions made explicit (truncation toward
zero, which is the floor for the positive values involved): `ar` is the fixed
`myrtille->aspectRatio`, `w`/`h` the requested resolution. -/
def resizeCore (ar : ℚ) (w h : Int) : Int × Int :=
  let reqRatio : ℚ := (w : ℚ) / (h : ℚ)
  if ar = reqRatio then (w, h)
  else if ar < reqRatio then (⌊(h : ℚ) * ar⌋, h)
  else (w, ⌊(w : ℚ) / ar⌋)

/-! ### Input command reader and dispatcher (`processInputsPipe`) -/

/-- The `COMMAND` enumeration (lines 78-120), in declaration order; the first
variant `SEND_SERVER_ADDRESS` has the underlying value 0. -/
inductive COMMAND where
  | SEND_SERVER_ADDRESS
  | SEND_VM_GUID
  | SEND_USER_DOMAIN
  | SEND_USER_NAME
  | SEND_USER_PASSWORD
  | SEND_START_PROGRAM
  | CONNECT_CLIENT
  | SEND_BROWSER_RESIZE
  | SEND_BROWSER_PULSE
  | SEND_KEY_UNICODE
  | SEND_KEY_SCANCODE
  | SEND_MOUSE_MOVE
  | SEND_MOUSE_LEFT_BUTTON
  | SEND_MOUSE_MIDDLE_BUTTON
  | SEND_MOUSE_RIGHT_BUTTON
  | SEND_MOUSE_WHEEL_UP
  | SEND_MOUSE_WHEEL_DOWN
  | SET_SCALE_DISPLAY
  | SET_RECONNECT_SESSION
  | SET_IMAGE_ENCODING
  | SET_IMAGE_QUALITY
  | SET_IMAGE_QUANTITY
  | SET_AUDIO_FORMAT
  | SET_AUDIO_BITRATE
  | SET_SCREENSHOT_CONFIG
  | START_TAKING_SCREENSHOTS
  | STOP_TAKING_SCREENSHOTS
  | TAKE_SCREENSHOT
  | REQUEST_FULLSCREEN_UPDATE
  | SEND_LOCAL_CLIPBOARD
  | CLOSE_CLIENT
deriving Repr, DecidableEq

/-- The 31 3-character tags registered into `commandMap` by
`wf_myrtille_start` (lines 250-280). -/
def commandTags : List (String × COMMAND) :=
  [("SRV", .SEND_SERVER_ADDRESS),
   ("VMG", .SEND_VM_GUID),
   ("DOM", .SEND_USER_DOMAIN),
   ("USR", .SEND_USER_NAME),
   ("PWD", .SEND_USER_PASSWORD),
   ("PRG", .SEND_START_PROGRAM),
   ("CON", .CONNECT_CLIENT),
   ("RSZ", .SEND_BROWSER_RESIZE),
   ("PLS", .SEND_BROWSER_PULSE),
   ("KUC", .SEND_KEY_UNICODE),
   ("KSC", .SEND_KEY_SCANCODE),
   ("MMO", .SEND_MOUSE_MOVE),
   ("MLB", .SEND_MOUSE_LEFT_BUTTON),
   ("MMB", .SEND_MOUSE_MIDDLE_BUTTON),
   ("MRB", .SEND_MOUSE_RIGHT_BUTTON),
   ("MWU", .SEND_MOUSE_WHEEL_UP),
   ("MWD", .SEND_MOUSE_WHEEL_DOWN),
   ("SCA", .SET_SCALE_DISPLAY),
   ("RCN", .SET_RECONNECT_SESSION),
   ("ECD", .SET_IMAGE_ENCODING),
   ("QLT", .SET_IMAGE_QUALITY),
   ("QNT", .SET_IMAGE_QUANTITY),
   ("AUD", .SET_AUDIO_FORMAT),
   ("BIT", .SET_AUDIO_BITRATE),
   ("SSC", .SET_SCREENSHOT_CONFIG),
   ("SS1", .START_TAKING_SCREENSHOTS),
   ("SS0", .STOP_TAKING_SCREENSHOTS),
   ("SCN", .TAKE_SCREENSHOT),
   ("FSU", .REQUEST_FULLSCREEN_UPDATE),
   ("CLP", .SEND_LOCAL_CLIPBOARD),
   ("CLO", .CLOSE_CLIENT)]

/-- The tag lookup `commandMap[message.substr(0, 3)]` (line 1120).
`std::map::operator[]` inserts a value-initialized entry when the key is
missing; value-initialization of the scoped enum `COMMAND` yields the
underlying value 0, which is `COMMAND::SEND_SERVER_ADDRESS`.  An unknown tag
therefore maps to `SEND_SERVER_ADDRESS`. -/
def lookupCommand (tag : String) : COMMAND :=
  match commandTags.lookup tag with
  | some c => c
  | none => COMMAND.SEND_SERVER_ADDRESS

/-- `strchr` on the character list of a string: index of the first
occurrence. -/
def strchrIdx (l : List Char) (c : Char) : Option Nat :=
  l.findIdx? (· = c)

/-- Digit string to number. -/
def digitsToNat (l : List Char) : Nat :=
  l.foldl (fun a c => a * 10 + (c.toNat - 48)) 0

/-- The C++ whitespace class used by numeric parsing. -/
def isSpaceChar (c : Char) : Bool :=
  c = ' ' ∨ c = '\t' ∨ c = '\n' ∨ c = '\r' ∨ c.toNat = 11 ∨ c.toNat = 12

/-- `std::stoi`: skip whitespace, optional sign, then a digit run; throws
(`none`: the process terminates on the uncaught exception) when no digit
follows or the value overflows `int`. -/
def stoiModel (s : String) : Option Int :=
  let l := s.toList.dropWhile isSpaceChar
  let sign : Int := if l.head? = some '-' then -1 else 1
  let l' := if l.head? = some '-' ∨ l.head? = some '+' then l.drop 1 else l
  let ds := l'.takeWhile (·.isDigit)
  if ds = [] then none
  else
    let v : Int := sign * (digitsToNat ds : Int)
    if v < -2147483648 ∨ 2147483647 < v then none else some v

/-- `atoi`: same parse as `stoiModel` but returns 0 instead of throwing when
no digits are found (overflow, undefined in C, is returned unreduced; the
handlers only apply it to small port/key values). -/
def atoiModel (s : String) : Int :=
  let l := s.toList.dropWhile isSpaceChar
  let sign : Int := if l.head? = some '-' then -1 else 1
  let l' := if l.head? = some '-' ∨ l.head? = some '+' then l.drop 1 else l
  let ds := l'.takeWhile (·.isDigit)
  sign * (digitsToNat ds : Int)

/-- The `split` helper of the source (lines 1041-1055), which uses
`std::getline` with a delimiter: like `String.splitOn` for a single-character
delimiter, except that an empty string yields no pieces and a trailing
delimiter does not open a trailing empty piece. -/
def cppSplit (s : String) (delim : Char) : List String :=
  if s = "" then []
  else
    let parts := s.splitOn (String.mk [delim])
    if s.endsWith (String.mk [delim]) then parts.dropLast else parts

/-- Session and connection-settings fields mutated by the command dispatcher
(`wf_myrtille` fields plus the `rdpSettings` fields the handlers touch). -/
structure MyrtilleState where
  processInputs : Bool
  imageEncoding : Int
  imageQuality : Int
  imageQuantity : Int
  scaleDisplay : Bool
  clientWidth : Int
  clientHeight : Int
  aspect : ℚ
  audioFormat : Int
  audioBitrate : Int
  screenshotIntervalSecs : Int
  screenshotFormat : Int
  screenshotPath : String
  screenshotEnabled : Bool
  clipboardText : String
  serverHostname : Option String
  serverPort : Int
  domain : Option String
  username : Option String
  password : Option String
  alternateShell : Option String
  vmConnectMode : Bool
  negotiateSecurityLayer : Bool
  sendPreconnectionPdu : Bool
  preconnectionBlob : Option String
deriving Repr, DecidableEq

/-- Externally visible actions a handler performs besides mutating the state:
messages on the updates pipe, injected input events, thread spawns. -/
inductive Effect where
  | reload
  | spawnClientThread
  | keyUnicode (down : Bool) (code : Int)
  | keyScancode (extended : Bool) (down : Bool) (code : Int)
  | mouse (flags : Nat) (x y : Int)
  | screenUpdate (adaptive : Bool)
  | clipboardInvalidate
deriving Repr, DecidableEq

/-- RDP pointer flags used by the mouse handlers (values from the FreeRDP
protocol headers, external to this file). -/
def PTR_FLAGS_MOVE : Nat := 0x0800
def PTR_FLAGS_DOWN : Nat := 0x8000
def PTR_FLAGS_BUTTON1 : Nat := 0x1000
def PTR_FLAGS_BUTTON2 : Nat := 0x2000
def PTR_FLAGS_BUTTON3 : Nat := 0x4000
def PTR_FLAGS_WHEEL : Nat := 0x0200
def PTR_FLAGS_WHEEL_NEGATIVE : Nat := 0x0100

/-- The `SEND_SERVER_ADDRESS` handler (lines 1155-1206): the hostname is
freed and reset; an `[`-free argument is parsed as `host[:port]` (hostname up
to the first `:`, port from `atoi` past it), an argument containing `[` as
`[ipv6]:port` (hostname between the brackets; port parsed only when `:`
follows `]`; when `]` is missing, or precedes `[` so that the computed length
is non-positive and the `calloc` fails, the hostname stays null).  Returns the
new (hostname, port). -/
def parseServerAddress (oldPort : Int) (args : String) : Option String × Int :=
  let l := args.toList
  match strchrIdx l '[' with
  | none =>
    match strchrIdx l ':' with
    | some i => (some (String.mk (l.take i)), atoiModel (String.mk (l.drop (i + 1))))
    | none => (some args, oldPort)
  | some i =>
    match strchrIdx l ']' with
    | some j =>
      if j ≤ i then (none, oldPort)
      else
        let newPort := if (l.drop (j + 1)).head? = some ':'
          then atoiModel (String.mk (l.drop (j + 2))) else oldPort
        (some (String.mk ((l.drop (i + 1)).take (j - i - 1))), newPort)
    | none => (none, oldPort)

/-- `processMouseInput` (lines 1513-1551): split the argument at the first
`-`, require both halves non-empty with non-negative values, and inject a
mouse event, scaling browser coordinates by `desktop / client` when display
scaling is active and the sizes differ.  `none` models the process dying on a
`std::stoi` exception for a malformed number. -/
def processMouseInput (st : MyrtilleState) (dw dh : Int) (input : String)
    (flags : Nat) : Option (List Effect) :=
  match strchrIdx input.toList '-' with
  | none => some []
  | some i =>
    let mX := String.mk (input.toList.take i)
    let mY := String.mk (input.toList.drop (i + 1))
    if mX = "" then some [] else
    match stoiModel mX with
    | none => none
    | some x =>
      if x < 0 then some [] else
      if mY = "" then some [] else
      match stoiModel mY with
      | none => none
      | some y =>
        if y < 0 then some [] else
        if ¬ st.scaleDisplay ∨ (st.clientWidth = dw ∧ st.clientHeight = dh) then
          some [Effect.mouse flags x y]
        else
          some [Effect.mouse flags (x * dw / st.clientWidth) (y * dh / st.clientHeight)]

/-- `processResizeDisplay` (lines 1477-1511): parse `WxH`, then either adopt
the resolution or derive one dimension from the fixed aspect ratio
(`resizeCore`).  No `x` separator leaves the state unchanged; a malformed
number kills the process (`none`). -/
def processResizeDisplayM (st : MyrtilleState) (keepAspect : Bool)
    (resolution : String) : Option MyrtilleState :=
  match strchrIdx resolution.toList 'x' with
  | none => some st
  | some i =>
    match stoiModel (String.mk (resolution.toList.take i)),
        stoiModel (String.mk (resolution.toList.drop (i + 1))) with
    | some w, some h =>
      if keepAspect then
        some { st with clientWidth := (resizeCore st.aspect w h).1,
                       clientHeight := (resizeCore st.aspect w h).2 }
      else
        some { st with clientWidth := w, clientHeight := h }
    | _, _ => none

/-- The per-command dispatch of `processInputsPipe` (lines 1152-1455), as a
state transformer returning the updated state and the emitted effects;
`none` models the process dying on an uncaught exception (std::stoi on a
non-numeric argument, std::string::substr past the end).  `dw`/`dh` are the
desktop width/height.  External collaborators (input injection, thread
creation, the clipboard channel) appear as effects; the `freerdp_parse_username`
split of the user-name handler is modelled from the spec ("auto-split
`domain\x5cuser` when domain unset"), its source being outside this file. -/
def dispatchCommand (dw dh : Int) (st : MyrtilleState) (cmd : COMMAND)
    (args : String) : Option (MyrtilleState × List Effect) :=
  match cmd with
  | .SEND_SERVER_ADDRESS =>
    let hp := parseServerAddress st.serverPort args
    some ({ st with serverHostname := hp.1, serverPort := hp.2 }, [])
  | .SEND_VM_GUID =>
    some ({ st with vmConnectMode := true, serverPort := 2179,
                    negotiateSecurityLayer := false, sendPreconnectionPdu := true,
                    preconnectionBlob := some args }, [])
  | .SEND_USER_DOMAIN =>
    some ({ st with domain := some args }, [])
  | .SEND_USER_NAME =>
    if st.domain = none then
      match strchrIdx args.toList '\\' with
      | some i =>
        some ({ st with domain := some (String.mk (args.toList.take i)),
                        username := some (String.mk (args.toList.drop (i + 1))) }, [])
      | none => some ({ st with username := some args }, [])
    else
      some ({ st with username := some args }, [])
  | .SEND_USER_PASSWORD =>
    some ({ st with password := some args }, [])
  | .SEND_START_PROGRAM =>
    some ({ st with alternateShell := some args }, [])
  | .CONNECT_CLIENT =>
    some (st, [Effect.spawnClientThread])
  | .SEND_BROWSER_RESIZE =>
    if st.scaleDisplay then
      let parts := cppSplit args '|'
      if parts.length = 2 then
        match processResizeDisplayM st (parts.getD 0 "" = "1") (parts.getD 1 "") with
        | none => none
        | some st' => some (st', [Effect.reload])
      else some (st, [Effect.reload])
    else some (st, [])
  | .SEND_BROWSER_PULSE =>
    some (st, [])
  | .SEND_KEY_UNICODE =>
    let parts := cppSplit args '-'
    if 2 ≤ parts.length then
      some (st, [Effect.keyUnicode (parts.getD 1 "" = "1") (atoiModel (parts.getD 0 ""))])
    else some (st, [])
  | .SEND_KEY_SCANCODE =>
    let parts := cppSplit args '-'
    if 2 ≤ parts.length then
      if parts.length = 3 then
        some (st, [Effect.keyScancode (parts.getD 2 "" = "1") (parts.getD 1 "" = "1")
          (atoiModel (parts.getD 0 ""))])
      else some (st, [])
    else some (st, [])
  | .SEND_MOUSE_MOVE =>
    match processMouseInput st dw dh args PTR_FLAGS_MOVE with
    | none => none
    | some effs => some (st, effs)
  | .SEND_MOUSE_LEFT_BUTTON =>
    if args.length < 1 then none
    else
      match processMouseInput st dw dh (String.mk (args.toList.drop 1))
          (if String.mk (args.toList.take 1) = "0" then PTR_FLAGS_BUTTON1
           else PTR_FLAGS_DOWN ||| PTR_FLAGS_BUTTON1) with
      | none => none
      | some effs => some (st, effs)
  | .SEND_MOUSE_MIDDLE_BUTTON =>
    if args.length < 1 then none
    else
      match processMouseInput st dw dh (String.mk (args.toList.drop 1))
          (if String.mk (args.toList.take 1) = "0" then PTR_FLAGS_BUTTON3
           else PTR_FLAGS_DOWN ||| PTR_FLAGS_BUTTON3) with
      | none => none
      | some effs => some (st, effs)
  | .SEND_MOUSE_RIGHT_BUTTON =>
    if args.length < 1 then none
    else
      match processMouseInput st dw dh (String.mk (args.toList.drop 1))
          (if String.mk (args.toList.take 1) = "0" then PTR_FLAGS_BUTTON2
           else PTR_FLAGS_DOWN ||| PTR_FLAGS_BUTTON2) with
      | none => none
      | some effs => some (st, effs)
  | .SEND_MOUSE_WHEEL_UP =>
    match processMouseInput st dw dh args (PTR_FLAGS_WHEEL ||| 0x0078) with
    | none => none
    | some effs => some (st, effs)
  | .SEND_MOUSE_WHEEL_DOWN =>
    match processMouseInput st dw dh args
        (PTR_FLAGS_WHEEL ||| PTR_FLAGS_WHEEL_NEGATIVE ||| 0x0088) with
    | none => none
    | some effs => some (st, effs)
  | .SET_SCALE_DISPLAY =>
    let st1 := { st with scaleDisplay := args ≠ "0" }
    if st1.scaleDisplay then
      let parts := cppSplit args '|'
      if parts.length = 2 then
        match processResizeDisplayM st1 (parts.getD 0 "" = "1") (parts.getD 1 "") with
        | none => none
        | some st2 => some (st2, [Effect.reload])
      else some (st1, [Effect.reload])
    else some (st1, [Effect.reload])
  | .SET_RECONNECT_SESSION =>
    let parts := cppSplit args '|'
    if parts.length = 2 ∧ parts.getD 1 "" = "1" then some (st, [Effect.reload])
    else some (st, [])
  | .SET_IMAGE_ENCODING =>
    match stoiModel args with
    | none => none
    | some v => some ({ st with imageEncoding := v, imageQuality := 50 }, [])
  | .SET_IMAGE_QUALITY =>
    match stoiModel args with
    | none => none
    | some v => some ({ st with imageQuality := v }, [])
  | .SET_IMAGE_QUANTITY =>
    match stoiModel args with
    | none => none
    | some v => some ({ st with imageQuantity := v }, [])
  | .SET_AUDIO_FORMAT =>
    match stoiModel args with
    | none => none
    | some v => some ({ st with audioFormat := v }, [])
  | .SET_AUDIO_BITRATE =>
    match stoiModel args with
    | none => none
    | some v => some ({ st with audioBitrate := v }, [])
  | .SET_SCREENSHOT_CONFIG =>
    let parts := cppSplit args '|'
    if parts.length = 3 then
      match stoiModel (parts.getD 0 ""), stoiModel (parts.getD 1 "") with
      | some a, some b =>
        some ({ st with screenshotIntervalSecs := a, screenshotFormat := b,
                        screenshotPath := parts.getD 2 "" }, [])
      | _, _ => none
    else some (st, [])
  | .START_TAKING_SCREENSHOTS =>
    some (st, [])
  | .STOP_TAKING_SCREENSHOTS =>
    some (st, [])
  | .TAKE_SCREENSHOT =>
    some ({ st with screenshotEnabled := true }, [Effect.screenUpdate true])
  | .REQUEST_FULLSCREEN_UPDATE =>
    some (st, [Effect.screenUpdate (args = "adaptive")])
  | .SEND_LOCAL_CLIPBOARD =>
    some ({ st with clipboardText := args }, [Effect.clipboardInvalidate])
  | .CLOSE_CLIENT =>
    some ({ st with processInputs := false }, [])

/-- Processing of one full payload by the reader loop (lines 1118-1455):
the first 3 bytes are the tag, the remainder the argument string
(`message.substr(3, ...)` throws when the payload is shorter than 3 bytes:
`none`). -/
def processMessage (dw dh : Int) (st : MyrtilleState) (message : String) :
    Option (MyrtilleState × List Effect) :=
  if message.length < 3 then none
  else dispatchCommand dw dh st (lookupCommand (String.mk (message.toList.take 3)))
    (String.mk (message.toList.drop 3))

/-- A value representable as a non-negative C `int` (the ranges of the index,
position, dimension, format and quality fields of an image message). -/
def i32range (v : Int) : Prop := 0 ≤ v ∧ v < 2147483648

instance (v : Int) : Decidable (i32range v) := by
  unfold i32range; infer_instance

/-- A sample running session state: the defaults installed by
`wf_myrtille_start` for a 1024x768 desktop, after a successful
`SEND_SERVER_ADDRESS myserver` and with `processInputs` running. -/
def exampleState : MyrtilleState :=
  { processInputs := true, imageEncoding := 0, imageQuality := 50, imageQuantity := 100,
    scaleDisplay := false, clientWidth := 1024, clientHeight := 768, aspect := 4 / 3,
    audioFormat := 2, audioBitrate := 128, screenshotIntervalSecs := 60,
    screenshotFormat := 1, screenshotPath := "", screenshotEnabled := false,
    clipboardText := "", serverHostname := some "myserver", serverPort := 3389,
    domain := none, username := none, password := none, alternateShell := none,
    vmConnectMode := false, negotiateSecurityLayer := true,
    sendPreconnectionPdu := false, preconnectionBlob := none }

/-! ## Theorems -/

/-- C10: a degenerate or out-of-bounds region event is rejected by the
consistency check of `wf_myrtille_send_region` before the ips regulator runs:
the event counter is not incremented, the accumulator is untouched, the state
is returned unchanged and nothing is forwarded to the capture/encode/send
stage. -/
theorem C10_invalid_region_noop (dw dh imageQuantity : Int) (s : ThrottleState)
    (r : MRect) (h : regionRejected dw dh r) :
    wfSendRegion dw dh imageQuantity s r = (s, none) := by
  unfold wfSendRegion
  rw [if_pos h]

/-- C10 witness: the region with a negative left coordinate on a 1024x768
desktop is dropped with no state change. -/
theorem C10_invalid_region_noop_witness :
    regionRejected 1024 768 ⟨-3, 0, 10, 10⟩ ∧
      wfSendRegion 1024 768 25 initThrottle ⟨-3, 0, 10, 10⟩ = (initThrottle, none) :=
  ⟨by decide, C10_invalid_region_noop 1024 768 25 initThrottle ⟨-3, 0, 10, 10⟩ (by decide)⟩

/-- C3: in AUTO mode `processImage` runs both the PNG and the JPEG codec;
when both produce output, the smaller encoded size is selected, a tie selects
PNG, and a PNG selection always reports the lossless maximum quality 100
whatever the client-set quality is. -/
theorem C3_auto_selects_smaller (imageQuality : Int) (fullscreen adaptive : Bool)
    (pngSize jpgSize webpSize : Nat) (hpng : 0 < pngSize) (hjpg : 0 < jpgSize) :
    encodersRun ENC_AUTO = (true, true, false) ∧
    (pngSize ≤ jpgSize →
      processImageSelect ENC_AUTO imageQuality fullscreen adaptive pngSize jpgSize webpSize =
        some (FMT_PNG, 100, pngSize)) ∧
    (jpgSize < pngSize →
      processImageSelect ENC_AUTO imageQuality fullscreen adaptive pngSize jpgSize webpSize =
        some (FMT_JPEG, effQuality ENC_AUTO imageQuality fullscreen adaptive, jpgSize)) := by
  refine ⟨by simp [encodersRun, ENC_AUTO, ENC_PNG, ENC_JPEG, ENC_WEBP], ?_, ?_⟩
  · intro hle
    simp only [processImageSelect, ENC_AUTO, ENC_PNG, ENC_JPEG, ENC_WEBP]
    norm_num [hle, hpng]
  · intro hlt
    simp only [processImageSelect, ENC_AUTO, ENC_PNG, ENC_JPEG, ENC_WEBP]
    norm_num [Nat.not_le.2 hlt, hjpg, Nat.le_of_lt hlt]

/-- C3 witness: with both candidates non-empty (PNG 10 bytes, JPEG 20 bytes)
the PNG candidate is selected at quality 100. -/
theorem C3_auto_selects_smaller_witness :
    (0 : Nat) < 10 ∧ (0 : Nat) < 20 ∧
      processImageSelect ENC_AUTO 50 false false 10 20 0 = some (FMT_PNG, 100, 10) :=
  ⟨by decide, by decide,
    (C3_auto_selects_smaller 50 false false 10 20 0 (by decide) (by decide)).2.1 (by decide)⟩

/-- C4 counterexample: in AUTO mode with a failed PNG candidate (0 bytes) and
a successful 7-byte JPEG candidate, the zero-byte PNG wins the
`pngSize <= jpgSize` comparison and the `size > 0` send guard then suppresses
the update — an update is omitted although not every candidate failed,
contradicting the claim. -/
theorem C4_cex_omitted_despite_success :
    processImageSelect ENC_AUTO 50 false false 0 7 0 = none ∧ (7 : Nat) ≠ 0 := by
  constructor
  · decide
  · decide

/-- C4 amended: in AUTO mode an emitted update always carries a non-empty
payload coming from the candidate of its selected format, but an update is
omitted exactly when *either* candidate fails (produces zero bytes), not only
when both fail: a zero-byte winner of the size comparison suppresses the
update even when the other candidate succeeded. -/
theorem C4_amended_failed_candidates (imageQuality : Int) (fullscreen adaptive : Bool)
    (pngSize jpgSize webpSize : Nat) :
    (∀ f q s,
      processImageSelect ENC_AUTO imageQuality fullscreen adaptive pngSize jpgSize webpSize =
          some (f, q, s) →
        0 < s ∧ (f = FMT_PNG → s = pngSize) ∧ (f = FMT_JPEG → s = jpgSize)) ∧
    (processImageSelect ENC_AUTO imageQuality fullscreen adaptive pngSize jpgSize webpSize =
        none ↔ pngSize = 0 ∨ jpgSize = 0) := by
  constructor
  · intro f q s h
    simp only [processImageSelect, ENC_AUTO, ENC_PNG, ENC_JPEG, ENC_WEBP] at h
    norm_num at h
    by_cases hle : pngSize ≤ jpgSize
    · rw [if_pos hle] at h
      split_ifs at h with h0
      · obtain ⟨rfl, rfl, rfl⟩ := h
        refine ⟨h0, fun _ => rfl, fun hf => ?_⟩
        exact absurd hf (by decide)
    · rw [if_neg hle] at h
      split_ifs at h with h0
      · obtain ⟨rfl, rfl, rfl⟩ := h
        refine ⟨h0, fun hf => ?_, fun _ => rfl⟩
        exact absurd hf (by decide)
  · simp only [processImageSelect, ENC_AUTO, ENC_PNG, ENC_JPEG, ENC_WEBP]
    norm_num
    by_cases hle : pngSize ≤ jpgSize
    · rw [if_pos hle]
      split_ifs with h0
      · simp
        omega
      · simp
        omega
    · rw [if_neg hle]
      split_ifs with h0
      · simp
        omega
      · simp
        omega

/-- C4 amended witness: a failed PNG candidate omits the update. -/
theorem C4_amended_failed_candidates_witness :
    processImageSelect ENC_AUTO 50 false false 0 9 0 = none :=
  ((C4_amended_failed_candidates 50 false false 0 9 0).2).mpr (Or.inl rfl)

/-- C5 counterexample: when the shared image counter stands at `INT_MAX`, the
next sent image carries index 1, not 0 — the handler first resets the counter
to 0 and only then pre-increments it (`++myrtille->imageIdx`), so the claimed
wrap to 0 (and the +1 step from the previous index `INT_MAX`) does not
happen. -/
theorem C5_cex_wraps_to_one :
    (nextImageIdx INT_MAX true).2 = some 1 ∧ (1 : Int) ≠ 0 ∧ (1 : Int) ≠ INT_MAX + 1 := by
  refine ⟨by decide, by decide, by decide⟩

/-- C5 amended: each sent image carries index previous+1, except that the
image sent after one with index `INT_MAX` carries index 1 (the counter is
reset to 0 and then pre-incremented); the carried index is never negative and
always lies in `[1, INT_MAX]`; when no image is sent the counter does not
move past the reset and no index is emitted. -/
theorem C5_amended_index_step (imageIdx : Int) (h0 : 0 ≤ imageIdx)
    (h1 : imageIdx ≤ INT_MAX) :
    (nextImageIdx imageIdx true).2 =
      some (if imageIdx = INT_MAX then 1 else imageIdx + 1) ∧
    (∀ j, (nextImageIdx imageIdx true).2 = some j → 1 ≤ j ∧ j ≤ INT_MAX) ∧
    (nextImageIdx imageIdx false).2 = none := by
  unfold nextImageIdx
  refine ⟨?_, ?_, rfl⟩
  · by_cases h : imageIdx = INT_MAX <;> simp [h]
  · intro j hj
    have hI : INT_MAX = 2147483647 := rfl
    by_cases h : imageIdx = INT_MAX <;> simp [h] at hj <;> omega

/-- C5 witness: from index 5 a sent image carries index 6. -/
theorem C5_amended_index_step_witness :
    (nextImageIdx 5 true).2 = some (if (5 : Int) = INT_MAX then 1 else 5 + 1) :=
  (C5_amended_index_step 5 (by decide) (by decide)).1

/-- C6 counterexample: with the client-set quality at 100 and JPEG encoding,
an adaptive fullscreen update is encoded at the fixed `HIGHER` tier 75 while a
non-adaptive update is encoded at 100 — the adaptive quality is not strictly
higher. -/
theorem C6_cex_quality_not_higher :
    effQuality ENC_JPEG 100 true true = 75 ∧ effQuality ENC_JPEG 100 false false = 100 ∧
      ¬ effQuality ENC_JPEG 100 true true > effQuality ENC_JPEG 100 false false := by
  refine ⟨by decide, by decide, by decide⟩

/-- C6 amended: an adaptive fullscreen update in a non-PNG mode is always
encoded at the fixed `HIGHER` tier 75, overriding the client-set quality;
this is strictly higher than a non-adaptive update at the same client-set
quality exactly when that quality is below 75 (which holds for the LOW /
MEDIUM / HIGH tiers the bandwidth tuning uses); PNG encoding always uses the
lossless maximum 100 and is unaffected by the adaptive flag. -/
theorem C6_amended_adaptive_tier (enc imageQuality : Int) (fullscreen adaptive : Bool)
    (henc : enc = ENC_AUTO ∨ enc = ENC_JPEG ∨ enc = ENC_WEBP) :
    effQuality enc imageQuality true true = 75 ∧
    effQuality enc imageQuality fullscreen false = imageQuality ∧
    effQuality enc imageQuality false adaptive = imageQuality ∧
    (imageQuality < 75 →
      effQuality enc imageQuality true true > effQuality enc imageQuality fullscreen false) ∧
    effQuality ENC_PNG imageQuality fullscreen adaptive = 100 := by
  have hne : ¬ enc = ENC_PNG := by
    rcases henc with rfl | rfl | rfl <;> decide
  refine ⟨?_, ?_, ?_, ?_, ?_⟩
  · simp [effQuality, hne]
  · simp [effQuality, hne]
  · simp [effQuality, hne]
  · intro hlt
    simp only [effQuality, hne]
    simp
    omega
  · simp [effQuality]

/-- C6 witness: at the default client quality 50 and JPEG encoding, adaptive
fullscreen encodes at 75 while non-adaptive encodes at 50. -/
theorem C6_amended_adaptive_tier_witness :
    effQuality ENC_JPEG 50 true true = 75 ∧ effQuality ENC_JPEG 50 false false = 50 :=
  ⟨(C6_amended_adaptive_tier ENC_JPEG 50 false false (Or.inr (Or.inl rfl))).1,
   (C6_amended_adaptive_tier ENC_JPEG 50 false false (Or.inr (Or.inl rfl))).2.2.1⟩

/-- C7 counterexample: a `SET_IMAGE_ENCODING` command whose argument is not
numeric does not leave the session with quality 50 — `std::stoi` throws an
uncaught `std::invalid_argument` and the process dies (modelled by `none`),
so the claim's "with any argument" fails. -/
theorem C7_cex_nonnumeric_arg :
    processMessage 1024 768 exampleState "ECDabc" = none := by
  decide

/-- C7 amended: for any argument on which `std::stoi` succeeds, processing
`SET_IMAGE_ENCODING` stores the parsed encoding and resets the image quality
to the HIGH default 50 regardless of its previous value, and
`SET_IMAGE_QUALITY` / `SET_IMAGE_QUANTITY` store their parsed argument
verbatim; a non-numeric argument instead kills the process on the uncaught
`std::stoi` exception. -/
theorem C7_amended_encoding_setters (dw dh : Int) (st : MyrtilleState)
    (arg : String) (v : Int) (hparse : stoiModel arg = some v) :
    dispatchCommand dw dh st .SET_IMAGE_ENCODING arg =
      some ({ st with imageEncoding := v, imageQuality := 50 }, []) ∧
    dispatchCommand dw dh st .SET_IMAGE_QUALITY arg =
      some ({ st with imageQuality := v }, []) ∧
    dispatchCommand dw dh st .SET_IMAGE_QUANTITY arg =
      some ({ st with imageQuantity := v }, []) := by
  refine ⟨?_, ?_, ?_⟩ <;> simp [dispatchCommand, hparse]

/-- C7 witness: `SET_IMAGE_ENCODING 2` on a session with quality 10 resets
the quality to 50. -/
theorem C7_amended_encoding_setters_witness :
    stoiModel "2" = some 2 ∧
      dispatchCommand 1024 768 { exampleState with imageQuality := 10 }
          .SET_IMAGE_ENCODING "2" =
        some ({ { exampleState with imageQuality := 10 } with
                  imageEncoding := 2, imageQuality := 50 }, []) :=
  ⟨by decide,
   (C7_amended_encoding_setters 1024 768 { exampleState with imageQuality := 10 }
     "2" 2 (by decide)).1⟩

/-- C1: a payload whose first 3 bytes are not a registered tag is *not* a
no-op.  `commandMap[tag]` (`std::map::operator[]`) inserts a value-initialized
entry for a missing key, and value-initializing the scoped enum `COMMAND`
yields the underlying value 0 = `COMMAND::SEND_SERVER_ADDRESS`; the
server-address handler therefore runs on the unknown tag's argument and
overwrites the server hostname and port.  Evaluated here at the unregistered
tag "XYZ" with argument "1.2.3.4:5678" in a session whose server address was
"myserver":3389: the handler runs and the session settings change (no pipe
write occurs and the loop does continue, but the claimed state preservation
fails). -/
theorem C1_unknown_tag_not_noop :
    commandTags.lookup "XYZ" = none ∧
    processMessage 1024 768 exampleState "XYZ1.2.3.4:5678" =
      some ({ exampleState with serverHostname := some "1.2.3.4",
                                serverPort := 5678 }, []) ∧
    ({ exampleState with serverHostname := some "1.2.3.4",
                         serverPort := 5678 } : MyrtilleState) ≠ exampleState := by
  refine ⟨by decide, rfl, ?_⟩
  intro h
  have hport := congrArg MyrtilleState.serverPort h
  simp only [exampleState] at hport
  omega

/-- Little-endian round trip of the source's serialization pair: decoding the
four bytes of `int32ToBytes` recovers any value representable as a
non-negative C `int`. -/
theorem bytesToInt32_int32ToBytes (v : Int) (h : i32range v) :
    bytesToInt32 (int32ToBytes v) = v := by
  obtain ⟨h0, h1⟩ := h
  have hmod : v % 4294967296 = v := Int.emod_eq_of_lt h0 (by omega)
  simp only [int32ToBytes, bytesToInt32, hmod, List.getD_cons_zero, List.getD_cons_succ]
  have hn : (v.toNat : Int) = v := Int.toNat_of_nonneg h0
  have hlt : v.toNat < 2147483648 := by omega
  have hsum : v.toNat % 256 + v.toNat / 256 % 256 * 256 + v.toNat / 65536 % 256 * 65536 +
      v.toNat / 16777216 % 256 * 16777216 = v.toNat := by omega
  rw [hsum, if_pos hlt, hn]

/-- Helper: taking 4 bytes from a framed message starts with its first
4-byte field. -/
theorem take_four_append (l m : List Nat) (h : l.length = 4) :
    (l ++ m).take 4 = l := by
  rw [show (4 : Nat) = l.length from h.symm, List.take_left]

/-- Helper: dropping 4 bytes from a framed message removes its first
4-byte field. -/
theorem drop_four_append (l m : List Nat) (h : l.length = 4) :
    (l ++ m).drop 4 = m := by
  rw [show (4 : Nat) = l.length from h.symm, List.drop_left]

/-- Helper: `int32ToBytes` always yields 4 bytes. -/
theorem int32ToBytes_length (v : Int) : (int32ToBytes v).length = 4 := rfl

/-- C8: the image message written by `sendImage` has exactly the layout
`[u32 totalLen = payloadLen+36][u32 tag=0][u32 idx][u32 x][u32 y][u32 w]
[u32 h][u32 format][u32 quality][u32 fullscreen(0/1)][payload]` with every
integer little-endian: the message is 40 bytes of header plus the payload,
and decoding each 4-byte field with the source's own little-endian decoder
recovers the advertised value. -/
theorem C8_image_frame_layout (idx posX posY width height format quality : Int)
    (fullscreen : Bool) (payload : List Nat)
    (hidx : i32range idx) (hx : i32range posX) (hy : i32range posY)
    (hw : i32range width) (hh : i32range height) (hf : i32range format)
    (hq : i32range quality) (hp : (payload.length : Int) + 36 < 2147483648) :
    (sendImageBytes idx posX posY width height format quality fullscreen payload).length =
      payload.length + 40 ∧
    bytesToInt32 ((sendImageBytes idx posX posY width height format quality fullscreen
      payload).take 4) = (payload.length : Int) + 36 ∧
    bytesToInt32 (((sendImageBytes idx posX posY width height format quality fullscreen
      payload).drop 4).take 4) = 0 ∧
    bytesToInt32 (((sendImageBytes idx posX posY width height format quality fullscreen
      payload).drop 8).take 4) = idx ∧
    bytesToInt32 (((sendImageBytes idx posX posY width height format quality fullscreen
      payload).drop 12).take 4) = posX ∧
    bytesToInt32 (((sendImageBytes idx posX posY width height format quality fullscreen
      payload).drop 16).take 4) = posY ∧
    bytesToInt32 (((sendImageBytes idx posX posY width height format quality fullscreen
      payload).drop 20).take 4) = width ∧
    bytesToInt32 (((sendImageBytes idx posX posY width height format quality fullscreen
      payload).drop 24).take 4) = height ∧
    bytesToInt32 (((sendImageBytes idx posX posY width height format quality fullscreen
      payload).drop 28).take 4) = format ∧
    bytesToInt32 (((sendImageBytes idx posX posY width height format quality fullscreen
      payload).drop 32).take 4) = quality ∧
    bytesToInt32 (((sendImageBytes idx posX posY width height format quality fullscreen
      payload).drop 36).take 4) = (if fullscreen then 1 else 0) ∧
    (sendImageBytes idx posX posY width height format quality fullscreen
      payload).drop 40 = payload := by
  have hstep : ∀ (v : Int) (m : List Nat), (int32ToBytes v ++ m).take 4 = int32ToBytes v :=
    fun v m => take_four_append _ _ (int32ToBytes_length v)
  have hstep2 : ∀ (v : Int) (m : List Nat), (int32ToBytes v ++ m).drop 4 = m :=
    fun v m => drop_four_append _ _ (int32ToBytes_length v)
  have hdrop : ∀ (k : Nat) (v : Int) (m : List Nat),
      (int32ToBytes v ++ m).drop (4 + k) = m.drop k := by
    intro k v m
    rw [show 4 + k = (int32ToBytes v).length + k from by rw [int32ToBytes_length],
      List.drop_append]
  have d8 : ∀ (v : Int) (m : List Nat), (int32ToBytes v ++ m).drop 8 = m.drop 4 :=
    fun v m => hdrop 4 v m
  have d12 : ∀ (v : Int) (m : List Nat), (int32ToBytes v ++ m).drop 12 = m.drop 8 :=
    fun v m => hdrop 8 v m
  have d16 : ∀ (v : Int) (m : List Nat), (int32ToBytes v ++ m).drop 16 = m.drop 12 :=
    fun v m => hdrop 12 v m
  have d20 : ∀ (v : Int) (m : List Nat), (int32ToBytes v ++ m).drop 20 = m.drop 16 :=
    fun v m => hdrop 16 v m
  have d24 : ∀ (v : Int) (m : List Nat), (int32ToBytes v ++ m).drop 24 = m.drop 20 :=
    fun v m => hdrop 20 v m
  have d28 : ∀ (v : Int) (m : List Nat), (int32ToBytes v ++ m).drop 28 = m.drop 24 :=
    fun v m => hdrop 24 v m
  have d32 : ∀ (v : Int) (m : List Nat), (int32ToBytes v ++ m).drop 32 = m.drop 28 :=
    fun v m => hdrop 28 v m
  have d36 : ∀ (v : Int) (m : List Nat), (int32ToBytes v ++ m).drop 36 = m.drop 32 :=
    fun v m => hdrop 32 v m
  have d40 : ∀ (v : Int) (m : List Nat), (int32ToBytes v ++ m).drop 40 = m.drop 36 :=
    fun v m => hdrop 36 v m
  unfold sendImageBytes
  refine ⟨by simp [int32ToBytes], ?_, ?_, ?_, ?_, ?_, ?_, ?_, ?_, ?_, ?_, ?_⟩ <;>
    simp only [List.append_assoc, d40, d36, d32, d28, d24, d20, d16, d12, d8,
      hstep2, hstep]
  · rw [bytesToInt32_int32ToBytes]
    exact ⟨by positivity, hp⟩
  · rw [bytesToInt32_int32ToBytes]
    decide
  · rw [bytesToInt32_int32ToBytes _ hidx]
  · rw [bytesToInt32_int32ToBytes _ hx]
  · rw [bytesToInt32_int32ToBytes _ hy]
  · rw [bytesToInt32_int32ToBytes _ hw]
  · rw [bytesToInt32_int32ToBytes _ hh]
  · rw [bytesToInt32_int32ToBytes _ hf]
  · rw [bytesToInt32_int32ToBytes _ hq]
  · rw [bytesToInt32_int32ToBytes]
    split_ifs <;> decide

/-- C8 witness: a concrete 2-byte payload framed at index 7, position (3,4),
size 5x6, PNG format, quality 100, fullscreen. -/
theorem C8_image_frame_layout_witness :
    (sendImageBytes 7 3 4 5 6 1 100 true [170, 187]).length = 2 + 40 ∧
    bytesToInt32 ((sendImageBytes 7 3 4 5 6 1 100 true [170, 187]).take 4) =
      (([170, 187] : List Nat).length : Int) + 36 :=
  ⟨(C8_image_frame_layout 7 3 4 5 6 1 100 true [170, 187] (by decide) (by decide)
      (by decide) (by decide) (by decide) (by decide) (by decide) (by decide)).1,
   (C8_image_frame_layout 7 3 4 5 6 1 100 true [170, 187] (by decide) (by decide)
      (by decide) (by decide) (by decide) (by decide) (by decide) (by decide)).2.1⟩

/-- C9 counterexample: with the fixed ratio a = 4/3 (a 1024x768 desktop) and
requested resolution 800x500, the derived width is the truncated
`clientHeight * aspectRatio` = ⌊500 · 4/3⌋ = 666, and 666/500 ≠ 4/3 — the
resulting pair does not satisfy width/height = a, refuting the claim's final
clause (the same truncation occurs with the source's `float` arithmetic:
500 · float(4/3) ≈ 666.667 truncates to 666). -/
theorem C9_cex_ratio_not_exact :
    resizeCore (4 / 3) 800 500 = (666, 500) ∧ ((666 : ℚ) / 500 ≠ 4 / 3) := by
  constructor
  · unfold resizeCore
    rw [if_neg (by norm_num), if_pos (by norm_num)]
    norm_num
  · norm_num

/-- C9 amended: when the requested ratio equals a the requested resolution is
adopted unchanged; otherwise exactly one dimension is kept and the other is
derived from it via a as the floor of the exact value (the C float-to-int
conversion), so the resulting pair satisfies width/height = a exactly when
the derived value is an integer and is within one unit of it otherwise. -/
theorem C9_amended_aspect_resize (ar : ℚ) (w h : Int) (har : 0 < ar)
    (hw : 0 < w) (hh : 0 < h) :
    ((w : ℚ) / (h : ℚ) = ar → resizeCore ar w h = (w, h)) ∧
    (ar < (w : ℚ) / (h : ℚ) →
      (resizeCore ar w h).2 = h ∧
      ((resizeCore ar w h).1 : ℚ) ≤ (h : ℚ) * ar ∧
      (h : ℚ) * ar < (resizeCore ar w h).1 + 1 ∧
      (∀ k : ℤ, (h : ℚ) * ar = k →
        ((resizeCore ar w h).1 : ℚ) / ((resizeCore ar w h).2 : ℚ) = ar)) ∧
    ((w : ℚ) / (h : ℚ) < ar →
      (resizeCore ar w h).1 = w ∧
      ((resizeCore ar w h).2 : ℚ) ≤ (w : ℚ) / ar ∧
      (w : ℚ) / ar < (resizeCore ar w h).2 + 1 ∧
      (∀ k : ℤ, (w : ℚ) / ar = k →
        ((resizeCore ar w h).1 : ℚ) / ((resizeCore ar w h).2 : ℚ) = ar)) := by
  refine ⟨?_, ?_, ?_⟩
  · intro heq
    simp [resizeCore, heq.symm]
  · intro hlt
    have hne : ar ≠ (w : ℚ) / (h : ℚ) := ne_of_lt hlt
    simp only [resizeCore, if_neg hne, if_pos hlt]
    refine ⟨by trivial, Int.floor_le _, Int.lt_floor_add_one _, ?_⟩
    intro k hk
    rw [hk, Int.floor_intCast]
    have hh2 : (h : ℚ) ≠ 0 := by positivity
    field_simp
    linear_combination -hk
  · intro hgt
    have hne : ar ≠ (w : ℚ) / (h : ℚ) := ne_of_gt hgt
    have hnlt : ¬ ar < (w : ℚ) / (h : ℚ) := not_lt_of_gt hgt
    simp only [resizeCore, if_neg hne, if_neg hnlt]
    refine ⟨by trivial, Int.floor_le _, Int.lt_floor_add_one _, ?_⟩
    intro k hk
    rw [hk, Int.floor_intCast]
    have har2 : ar ≠ 0 := ne_of_gt har
    have hk0 : (0 : ℚ) < (k : ℚ) := by
      rw [← hk]
      positivity
    have hkne : (k : ℚ) ≠ 0 := ne_of_gt hk0
    field_simp at hk ⊢
    linear_combination hk

/-- C9 witness: requesting 800x600 with the fixed ratio 4/3 adopts the
resolution unchanged. -/
theorem C9_amended_aspect_resize_witness :
    resizeCore (4 / 3) 800 600 = (800, 600) :=
  (C9_amended_aspect_resize (4 / 3) 800 600 (by norm_num) (by decide) (by decide)).1
    (by norm_num)

/-! ### Region throttle lemmas (towards C2) -/

/-- A region that passes the consistency check has non-negative
coordinates. -/
theorem nonneg_of_not_rejected (dw dh : Int) (r : MRect)
    (h : ¬ regionRejected dw dh r) : r.nonneg := by
  unfold regionRejected at h
  push_neg at h
  exact ⟨h.1, h.2.2.1, h.2.2.2.2.1, h.2.2.2.2.2.2.1⟩

/-- Accumulating into the unset buffer adopts the region. -/
theorem accumBuf_unset (e : MRect) : accumBuf unsetRect e = e := by
  cases e
  simp [accumBuf, unsetRect]

/-- Accumulating into a buffer with non-negative bounds is the bounding
union. -/
theorem accumBuf_of_nonneg (B e : MRect) (hB : B.nonneg) :
    accumBuf B e = rectUnion B e := by
  obtain ⟨h1, h2, h3, h4⟩ := hB
  cases B
  cases e
  simp only [accumBuf, rectUnion, MRect.mk.injEq] at *
  refine ⟨?_, ?_, ?_, ?_⟩ <;> split_ifs <;> omega

/-- The bounding union preserves non-negativity. -/
theorem rectUnion_nonneg (a b : MRect) (ha : a.nonneg) (hb : b.nonneg) :
    (rectUnion a b).nonneg := by
  obtain ⟨_, _, _, _⟩ := ha
  obtain ⟨_, _, _, _⟩ := hb
  refine ⟨?_, ?_, ?_, ?_⟩ <;> simp only [rectUnion] <;> omega

/-- `boundingRect` preserves non-negativity. -/
theorem boundingRect_nonneg (l : List MRect) :
    ∀ (r : MRect), r.nonneg → (∀ e ∈ l, e.nonneg) → (boundingRect r l).nonneg := by
  induction l with
  | nil => intro r hr _; exact hr
  | cons e rest ih =>
    intro r hr hl
    simp only [boundingRect]
    exact ih _ (rectUnion_nonneg r e hr (hl e (by simp)))
      (fun x hx => hl x (by simp [hx]))

/-- Folding the source's sentinel accumulation over non-negative regions
computes the bounding union. -/
theorem foldl_accumBuf_eq (l : List MRect) :
    ∀ (r : MRect), r.nonneg → (∀ e ∈ l, e.nonneg) →
      l.foldl accumBuf r = boundingRect r l := by
  induction l with
  | nil => intro r _ _; rfl
  | cons e rest ih =>
    intro r hr hl
    simp only [List.foldl_cons, boundingRect]
    rw [accumBuf_of_nonneg r e hr]
    exact ih _ (rectUnion_nonneg r e hr (hl e (by simp)))
      (fun x hx => hl x (by simp [hx]))

/-- Appending one region to a bounding union extends it by one union. -/
theorem boundingRect_append (l : List MRect) :
    ∀ (r x : MRect), boundingRect r (l ++ [x]) = rectUnion (boundingRect r l) x := by
  induction l with
  | nil => intro r x; rfl
  | cons e rest ih =>
    intro r x
    simp only [List.cons_append, boundingRect]
    exact ih _ x

/-- `runRegions` over a concatenation splits into two runs. -/
theorem runRegions_append (dw dh q : Int) (l1 l2 : List MRect) :
    ∀ s, runRegions dw dh q s (l1 ++ l2) =
      ((runRegions dw dh q (runRegions dw dh q s l1).1 l2).1,
       (runRegions dw dh q s l1).2 ++
         (runRegions dw dh q (runRegions dw dh q s l1).1 l2).2) := by
  induction l1 with
  | nil => intro s; simp [runRegions]
  | cons e rest ih =>
    intro s
    simp only [List.cons_append, runRegions, List.append_eq]
    rw [ih]
    simp [List.append_assoc]

/-- One throttled event that passes the check and does not reach the sampling
boundary: the counter advances, the region is merged into the accumulator and
nothing is forwarded. -/
theorem step_noflush (dw dh q : Int)
    (hq : q = 5 ∨ q = 10 ∨ q = 20 ∨ q = 25 ∨ q = 50)
    (c : Int) (B e : MRect) (he : ¬ regionRejected dw dh e)
    (hc : c ≠ INT_MAX) (hmod : (c + 1) % (100 / q) ≠ 0) :
    wfSendRegion dw dh q ⟨c, B⟩ e = (⟨c + 1, accumBuf B e⟩, none) := by
  simp only [wfSendRegion, sendRegionStep, if_neg he, if_neg hc, if_pos hq, if_pos hmod]

/-- One throttled event that reaches the sampling boundary with a fully set
accumulator: the merged accumulator is forwarded and reset. -/
theorem step_flush (dw dh q : Int)
    (hq : q = 5 ∨ q = 10 ∨ q = 20 ∨ q = 25 ∨ q = 50)
    (c : Int) (B e : MRect) (he : ¬ regionRejected dw dh e)
    (hc : c ≠ INT_MAX) (hmod : (c + 1) % (100 / q) = 0)
    (hB : (accumBuf B e).top ≠ -1 ∧ (accumBuf B e).left ≠ -1 ∧
      (accumBuf B e).bottom ≠ -1 ∧ (accumBuf B e).right ≠ -1) :
    wfSendRegion dw dh q ⟨c, B⟩ e = (⟨c + 1, unsetRect⟩, some (accumBuf B e)) := by
  simp only [wfSendRegion, sendRegionStep, if_neg he, if_neg hc, if_pos hq,
    if_neg (not_not_intro hmod), if_pos hB]

/-- A run of events none of which reaches the sampling boundary: the counter
advances by the length, every region is merged into the accumulator and
nothing is forwarded. -/
theorem run_noflush (dw dh q : Int)
    (hq : q = 5 ∨ q = 10 ∨ q = 20 ∨ q = 25 ∨ q = 50) :
    ∀ (l : List MRect) (c : Int) (B : MRect),
      (∀ r ∈ l, ¬ regionRejected dw dh r) →
      0 ≤ c → c + l.length ≤ INT_MAX →
      (∀ i : Nat, i < l.length → (c + i + 1) % (100 / q) ≠ 0) →
      runRegions dw dh q ⟨c, B⟩ l = (⟨c + l.length, l.foldl accumBuf B⟩, []) := by
  intro l
  induction l with
  | nil =>
    intro c B _ _ _ _
    simp [runRegions]
  | cons e rest ih =>
    intro c B hval hc0 hcmax hnf
    simp only [List.length_cons] at hcmax
    push_cast at hcmax
    have hmax : c ≠ INT_MAX := by omega
    have hstep := step_noflush dw dh q hq c B e (hval e (by simp)) hmax
      (by simpa using hnf 0 (by simp))
    have ihres := ih (c + 1) (accumBuf B e) (fun r hr => hval r (by simp [hr]))
      (by omega) (by omega)
      (fun i hi => by
        have h2 := hnf (i + 1) (by simpa using Nat.succ_lt_succ hi)
        push_cast at h2 ⊢
        rwa [show c + 1 + (i : Int) + 1 = c + ((i : Int) + 1) + 1 from by ring])
    simp only [runRegions, hstep, ihres, Option.toList_none, List.nil_append,
      List.foldl_cons, List.length_cons]
    refine Prod.ext ?_ rfl
    simp only
    congr 1
    push_cast
    ring

/-- Unfolding equation of `chunksUnion` on a cons with a full group
available. -/
theorem chunksUnion_cons_full (n : Nat) (e : MRect) (rest : List MRect)
    (h : 0 < n ∧ n ≤ rest.length + 1) :
    chunksUnion n (e :: rest) =
      boundingRect e (rest.take (n - 1)) :: chunksUnion n (rest.drop (n - 1)) := by
  rw [chunksUnion]
  rw [dif_pos h]

/-- `chunksUnion` of a sequence shorter than one group is empty. -/
theorem chunksUnion_short (n : Nat) (l : List MRect) (h : l.length < n) :
    chunksUnion n l = [] := by
  cases l with
  | nil => rw [chunksUnion]
  | cons e rest =>
    rw [chunksUnion]
    rw [dif_neg]
    intro hcon
    simp only [List.length_cons] at h
    omega

/-- Useful arithmetic bundle for the registered quantities. -/
theorem ips_div_ge_two (q : Int)
    (hq : q = 5 ∨ q = 10 ∨ q = 20 ∨ q = 25 ∨ q = 50) :
    2 ≤ 100 / q ∧ 100 / q ≤ 20 := by
  rcases hq with rfl | rfl | rfl | rfl | rfl <;> decide

/-- A residue below the group size does not hit the sampling boundary. -/
theorem mod_ne_zero_of_lt (n c m : Int) (_h0 : 0 < n) (hc : c % n = 0)
    (hm : 1 ≤ m) (hm2 : m < n) : (c + m) % n ≠ 0 := by
  obtain ⟨t, rfl⟩ : n ∣ c := Int.dvd_of_emod_eq_zero hc
  rw [add_comm, mul_comm n t, Int.add_mul_emod_self, Int.emod_eq_of_lt (by omega) hm2]
  omega

/-- Running exactly one full group from a group boundary with an unset
accumulator: the first `100/q - 1` events only accumulate, the last event
flushes the bounding union of the whole group, and the accumulator is unset
again. -/
theorem run_chunk (dw dh q : Int)
    (hq : q = 5 ∨ q = 10 ∨ q = 20 ∨ q = 25 ∨ q = 50)
    (e : MRect) (rest : List MRect) (c : Int)
    (hlen : (e :: rest).length = (100 / q).toNat)
    (hval : ∀ r ∈ e :: rest, ¬ regionRejected dw dh r)
    (hc0 : 0 ≤ c) (hcmod : c % (100 / q) = 0)
    (hcmax : c + 100 / q ≤ INT_MAX) :
    runRegions dw dh q ⟨c, unsetRect⟩ (e :: rest) =
      (⟨c + 100 / q, unsetRect⟩, [boundingRect e rest]) := by
  obtain ⟨h2, h20⟩ := ips_div_ge_two q hq
  have hto : ((100 / q).toNat : Int) = 100 / q := Int.toNat_of_nonneg (by omega)
  simp only [List.length_cons] at hlen
  have hrestlen : (rest.length : Int) = 100 / q - 1 := by omega
  have hrest : rest ≠ [] := by
    intro hcon
    rw [hcon] at hrestlen
    simp at hrestlen
    omega
  obtain ⟨front, last, hfl⟩ : ∃ f x, rest = f ++ [x] :=
    ⟨rest.dropLast, rest.getLast hrest, (List.dropLast_append_getLast hrest).symm⟩
  subst hfl
  have hfrontlen : (front.length : Int) = 100 / q - 2 := by
    simp only [List.length_append, List.length_singleton] at hrestlen
    push_cast at hrestlen
    omega
  have hnonneg : ∀ r ∈ e :: (front ++ [last]), r.nonneg :=
    fun r hr => nonneg_of_not_rejected dw dh r (hval r hr)
  have hpre := run_noflush dw dh q hq (e :: front) c unsetRect
    (fun r hr => hval r (by
      simp only [List.mem_cons, List.mem_append] at hr ⊢
      tauto))
    hc0
    (by simp only [List.length_cons]; push_cast; omega)
    (fun i hi => by
      simp only [List.length_cons] at hi
      rw [show c + (i : Int) + 1 = c + ((i : Int) + 1) from by ring]
      exact mod_ne_zero_of_lt (100 / q) c ((i : Int) + 1) (by omega) hcmod (by omega)
        (by omega))
  have hbufeq : (e :: front).foldl accumBuf unsetRect = boundingRect e front := by
    rw [List.foldl_cons, accumBuf_unset]
    exact foldl_accumBuf_eq front e
      (hnonneg e (by simp))
      (fun x hx => hnonneg x (by simp [hx]))
  have hbnonneg : (boundingRect e front).nonneg :=
    boundingRect_nonneg front e (hnonneg e (by simp)) (fun x hx => hnonneg x (by simp [hx]))
  have hlastnonneg : last.nonneg := hnonneg last (by simp)
  have haccum : accumBuf ((e :: front).foldl accumBuf unsetRect) last =
      rectUnion (boundingRect e front) last := by
    rw [hbufeq]
    exact accumBuf_of_nonneg _ _ hbnonneg
  have hunion_nonneg : (rectUnion (boundingRect e front) last).nonneg :=
    rectUnion_nonneg _ _ hbnonneg hlastnonneg
  have hstep := step_flush dw dh q hq (c + front.length + 1)
    ((e :: front).foldl accumBuf unsetRect) last
    (hval last (by simp))
    (by omega)
    (by
      rw [show c + (front.length : Int) + 1 + 1 = c + 100 / q from by omega]
      obtain ⟨t, ht⟩ : (100 / q) ∣ c := Int.dvd_of_emod_eq_zero hcmod
      rw [ht, show 100 / q * t + 100 / q = 100 / q * (t + 1) from by ring]
      exact Int.mul_emod_right _ _)
    (by
      rw [haccum]
      obtain ⟨a1, a2, a3, a4⟩ := hunion_nonneg
      exact ⟨by omega, by omega, by omega, by omega⟩)
  rw [← List.cons_append, runRegions_append, hpre]
  simp only [List.length_cons]
  rw [show c + (((front.length + 1 : Nat) : Nat) : Int) = c + (front.length : Int) + 1
    from by push_cast; ring]
  simp only [runRegions, hstep, List.nil_append, List.append_nil, Option.toList_some]
  rw [haccum, boundingRect_append]
  rw [show c + (front.length : Int) + 1 + 1 = c + 100 / q from by omega]

/-- Main throttle characterization: from a group boundary with an unset
accumulator, the forwarded regions are exactly the bounding unions of the
consecutive complete groups of `100/q` events, the counter advances by the
number of events, and the accumulator holds the accumulation of the trailing
partial group. -/
theorem run_main (dw dh q : Int)
    (hq : q = 5 ∨ q = 10 ∨ q = 20 ∨ q = 25 ∨ q = 50) :
    ∀ (k : Nat) (l : List MRect) (c : Int),
      l.length ≤ k →
      (∀ r ∈ l, ¬ regionRejected dw dh r) →
      0 ≤ c → c % (100 / q) = 0 → c + l.length ≤ INT_MAX →
      runRegions dw dh q ⟨c, unsetRect⟩ l =
        (⟨c + l.length,
          (l.drop ((100 / q).toNat * (l.length / (100 / q).toNat))).foldl
            accumBuf unsetRect⟩,
         chunksUnion (100 / q).toNat l) := by
  obtain ⟨h2, h20⟩ := ips_div_ge_two q hq
  have hto : ((100 / q).toNat : Int) = 100 / q := Int.toNat_of_nonneg (by omega)
  have hto2 : 2 ≤ (100 / q).toNat := by omega
  intro k
  induction k with
  | zero =>
    intro l c hk hval hc0 hcmod hcmax
    have hnil : l = [] := List.length_eq_zero.mp (by omega)
    subst hnil
    simp [runRegions, chunksUnion]
  | succ k ih =>
    intro l c hk hval hc0 hcmod hcmax
    by_cases hshort : l.length < (100 / q).toNat
    · have hchunks : chunksUnion (100 / q).toNat l = [] := chunksUnion_short _ _ hshort
      have hdivz : l.length / (100 / q).toNat = 0 := Nat.div_eq_of_lt hshort
      rw [hchunks, hdivz, Nat.mul_zero, List.drop_zero]
      exact run_noflush dw dh q hq l c unsetRect hval hc0 hcmax
        (fun i hi => by
          rw [show c + (i : Int) + 1 = c + ((i : Int) + 1) from by ring]
          exact mod_ne_zero_of_lt (100 / q) c ((i : Int) + 1) (by omega) hcmod
            (by omega) (by omega))
    · push_neg at hshort
      obtain ⟨e, rest, rfl⟩ : ∃ e rest, l = e :: rest := by
        cases l with
        | nil => simp at hshort; omega
        | cons e rest => exact ⟨e, rest, rfl⟩
      simp only [List.length_cons] at hshort hk hcmax
      have hsplit : e :: rest =
          (e :: rest.take ((100 / q).toNat - 1)) ++ rest.drop ((100 / q).toNat - 1) := by
        rw [List.cons_append, List.take_append_drop]
      have htklen : (rest.take ((100 / q).toNat - 1)).length = (100 / q).toNat - 1 := by
        rw [List.length_take]
        omega
      have hchunklen : (e :: rest.take ((100 / q).toNat - 1)).length = (100 / q).toNat := by
        simp only [List.length_cons, htklen]
        omega
      have hchunk := run_chunk dw dh q hq e (rest.take ((100 / q).toNat - 1)) c
        hchunklen
        (fun r hr => hval r (by
          simp only [List.mem_cons] at hr ⊢
          rcases hr with h | h
          · exact Or.inl h
          · exact Or.inr (List.mem_of_mem_take h)))
        hc0 hcmod
        (by push_cast at hcmax ⊢; omega)
      have hmod2 : (c + 100 / q) % (100 / q) = 0 := by
        obtain ⟨t, ht⟩ : (100 / q) ∣ c := Int.dvd_of_emod_eq_zero hcmod
        rw [ht, show 100 / q * t + 100 / q = 100 / q * (t + 1) from by ring]
        exact Int.mul_emod_right _ _
      have hdroplen : (rest.drop ((100 / q).toNat - 1)).length =
          rest.length - ((100 / q).toNat - 1) := List.length_drop _ _
      have hrec := ih (rest.drop ((100 / q).toNat - 1)) (c + 100 / q)
        (by rw [hdroplen]; omega)
        (fun r hr => hval r (by
          simp only [List.mem_cons] at hr ⊢
          exact Or.inr (List.mem_of_mem_drop hr)))
        (by omega) hmod2
        (by rw [hdroplen]; push_cast at hcmax ⊢; omega)
      conv_lhs => rw [hsplit]
      rw [runRegions_append, hchunk, hrec]
      simp only [hdroplen]
      refine congrArg₂ Prod.mk (congrArg₂ ThrottleState.mk ?_ ?_) ?_
      · simp only [List.length_cons]
        push_cast
        omega
      · congr 1
        rw [List.drop_drop]
        have hM : (100 / q).toNat * ((e :: rest).length / (100 / q).toNat) =
            ((100 / q).toNat * ((rest.length - ((100 / q).toNat - 1)) / (100 / q).toNat) +
              ((100 / q).toNat - 1)) + 1 := by
          simp only [List.length_cons]
          have hsub : rest.length + 1 - (100 / q).toNat =
              rest.length - ((100 / q).toNat - 1) := by omega
          rw [Nat.div_eq_sub_div (by omega) (by omega), hsub, Nat.mul_add, Nat.mul_one,
            Nat.add_assoc, Nat.sub_add_cancel (by omega)]
        rw [hM, List.drop_succ_cons, Nat.add_comm ((100 / q).toNat - 1)]
      · rw [chunksUnion_cons_full _ _ _ ⟨by omega, by omega⟩]
        simp

/-- At quantity 100 (and any other unregistered quantity) the throttle is
bypassed: every valid region event is forwarded with its own rectangle
unmodified. -/
theorem run_pass_100 (dw dh : Int) :
    ∀ (l : List MRect) (s : ThrottleState),
      (∀ r ∈ l, ¬ regionRejected dw dh r) →
      (runRegions dw dh 100 s l).2 = l := by
  intro l
  induction l with
  | nil =>
    intro s _
    simp [runRegions]
  | cons e rest ih =>
    intro s hval
    have hstep : wfSendRegion dw dh 100 s e =
        (⟨(if s.imageCount = INT_MAX then 0 else s.imageCount) + 1, s.buf⟩, some e) := by
      simp only [wfSendRegion, sendRegionStep, if_neg (hval e (by simp))]
      rw [if_neg (by decide)]
    simp only [runRegions, hstep, Option.toList_some, List.cons_append, List.nil_append]
    rw [ih _ (fun r hr => hval r (by simp [hr]))]

/-- Whenever a throttled event is forwarded, the accumulator left behind is
the all-unset sentinel. -/
theorem step_reset (dw dh q : Int)
    (hq : q = 5 ∨ q = 10 ∨ q = 20 ∨ q = 25 ∨ q = 50)
    (s : ThrottleState) (e : MRect) (s2 : ThrottleState) (f : MRect)
    (h : wfSendRegion dw dh q s e = (s2, some f)) : s2.buf = unsetRect := by
  simp only [wfSendRegion, sendRegionStep] at h
  split_ifs at h with h1 h2 h3 h4 h5 h6
  all_goals
    rw [Prod.mk.injEq] at h
  all_goals
    first
      | exact Option.noConfusion h.2
      | rw [← h.1]

/-- C2 amended: for quantity q ∈ {5,10,20,25,50} and any sequence of at most
`INT_MAX` valid region events from session start (so the event counter never
wraps), the forwarded regions are exactly one per consecutive complete group
of `100/q` events, each carrying the bounding union of its whole group (all
events since the previous forward, the forwarded one included), and every
forward leaves the accumulator all-unset (-1); at quantity 100 every valid
event is forwarded with its own rectangle unmodified.  (Beyond `INT_MAX`
events the counter wrap of the source perturbs one group — see the
counterexample.) -/
theorem C2_amended_throttle (dw dh q : Int)
    (hq : q = 5 ∨ q = 10 ∨ q = 20 ∨ q = 25 ∨ q = 50)
    (evs : List MRect) (hval : ∀ r ∈ evs, ¬ regionRejected dw dh r)
    (hlen : (evs.length : Int) ≤ INT_MAX) :
    (runRegions dw dh q initThrottle evs).2 = chunksUnion (100 / q).toNat evs ∧
    (∀ (s : ThrottleState) (e : MRect) (s2 : ThrottleState) (f : MRect),
      wfSendRegion dw dh q s e = (s2, some f) → s2.buf = unsetRect) ∧
    (∀ (evs2 : List MRect) (s : ThrottleState),
      (∀ r ∈ evs2, ¬ regionRejected dw dh r) →
      (runRegions dw dh 100 s evs2).2 = evs2) := by
  refine ⟨?_, fun s e s2 f h => step_reset dw dh q hq s e s2 f h,
    fun evs2 s hv => run_pass_100 dw dh evs2 s hv⟩
  have hmain := run_main dw dh q hq evs.length evs 0 le_rfl hval le_rfl
    (Int.zero_emod _) (by simpa using hlen)
  have := congrArg Prod.snd hmain
  simpa [initThrottle] using this

/-- C2 witness: at quantity 25, four valid events produce exactly one
forwarded region, the bounding union of all four. -/
theorem C2_amended_throttle_witness :
    (runRegions 1024 768 25 initThrottle
      [⟨0, 0, 10, 10⟩, ⟨5, 5, 20, 20⟩, ⟨1, 2, 3, 4⟩, ⟨100, 100, 200, 200⟩]).2 =
      chunksUnion ((100 / 25 : Int)).toNat
        [⟨0, 0, 10, 10⟩, ⟨5, 5, 20, 20⟩, ⟨1, 2, 3, 4⟩, ⟨100, 100, 200, 200⟩] ∧
    chunksUnion ((100 / 25 : Int)).toNat
        [⟨0, 0, 10, 10⟩, ⟨5, 5, 20, 20⟩, ⟨1, 2, 3, 4⟩, ⟨100, 100, 200, 200⟩] =
      [⟨0, 0, 200, 200⟩] :=
  ⟨(C2_amended_throttle 1024 768 25 (by decide)
      [⟨0, 0, 10, 10⟩, ⟨5, 5, 20, 20⟩, ⟨1, 2, 3, 4⟩, ⟨100, 100, 200, 200⟩]
      (by decide) (by decide)).1,
   by
    rw [show ((100 / 25 : Int)).toNat = 4 from by decide]
    rw [chunksUnion_cons_full 4 ⟨0, 0, 10, 10⟩
      [⟨5, 5, 20, 20⟩, ⟨1, 2, 3, 4⟩, ⟨100, 100, 200, 200⟩] ⟨by decide, by decide⟩]
    rw [chunksUnion_short 4 _ (by decide)]
    decide⟩

/-- The bounding union is idempotent. -/
theorem rectUnion_self (r : MRect) : rectUnion r r = r := by
  cases r
  simp [rectUnion]

/-- `chunksUnion` with group size 2 over a replicated event halves the
list. -/
theorem chunksUnion_two_replicate (r : MRect) :
    ∀ k, chunksUnion 2 (List.replicate (2 * k) r) = List.replicate k r := by
  intro k
  induction k with
  | zero => exact chunksUnion_short 2 (List.replicate (2 * 0) r) (by simp)
  | succ k ih =>
    rw [show 2 * (k + 1) = 2 * k + 1 + 1 from by ring, List.replicate_succ,
      List.replicate_succ]
    rw [chunksUnion_cons_full 2 r (r :: List.replicate (2 * k) r)
      ⟨by decide, by simp⟩]
    simp only [List.take_succ_cons, List.take_zero, List.drop_succ_cons, List.drop_zero]
    rw [ih]
    simp only [boundingRect, rectUnion_self]
    rw [List.replicate_succ]

/-- C2 counterexample: the claim quantifies over *every* sequence of valid
region events, but across the `INT_MAX` counter wrap the grouping breaks.
With quantity 50 (group size 2) and 2,147,483,650 identical valid events on a
1024x768 desktop, the source forwards 1,073,741,824 regions (the counter
resets to 0 after event `INT_MAX`, so the group spanning the wrap stretches
to 3 events) while one forward per consecutive group of 2 would give
1,073,741,825 — the claimed grouping equation fails at this input. -/
theorem C2_cex_counter_wrap :
    (runRegions 1024 768 50 initThrottle
        (List.replicate 2147483650 ⟨0, 0, 10, 10⟩)).2 ≠
      chunksUnion (100 / (50 : Int)).toNat
        (List.replicate 2147483650 ⟨0, 0, 10, 10⟩) := by
  have hr : ¬ regionRejected 1024 768 ⟨0, 0, 10, 10⟩ := by decide
  have hpre := run_main 1024 768 50 (by decide) 2147483646
    (List.replicate 2147483646 ⟨0, 0, 10, 10⟩) 0
    (by rw [List.length_replicate])
    (fun x hx => by rwa [List.eq_of_mem_replicate hx])
    le_rfl (Int.zero_emod _)
    (by rw [List.length_replicate]; decide)
  rw [List.length_replicate] at hpre
  rw [show ((100 / (50 : Int))).toNat = 2 from by decide] at hpre
  rw [show (2147483646 : Nat) / 2 = 1073741823 from by norm_num] at hpre
  rw [show (2 : Nat) * 1073741823 = 2147483646 from by norm_num] at hpre
  have hdropnil : List.drop 2147483646 (List.replicate 2147483646
      (⟨0, 0, 10, 10⟩ : MRect)) = [] := by
    have h1 := List.drop_length (List.replicate 2147483646 (⟨0, 0, 10, 10⟩ : MRect))
    rwa [List.length_replicate] at h1
  rw [hdropnil] at hpre
  rw [chunksUnion_two_replicate _ 1073741823] at hpre
  have hsuffix : runRegions 1024 768 50 ⟨(2147483646 : Int), unsetRect⟩
      [⟨0, 0, 10, 10⟩, ⟨0, 0, 10, 10⟩, ⟨0, 0, 10, 10⟩, ⟨0, 0, 10, 10⟩] =
      (⟨3, ⟨0, 0, 10, 10⟩⟩, [⟨0, 0, 10, 10⟩]) := by decide
  have hsplitR : List.replicate 2147483650 (⟨0, 0, 10, 10⟩ : MRect) =
      List.replicate 2147483646 (⟨0, 0, 10, 10⟩ : MRect) ++
        [⟨0, 0, 10, 10⟩, ⟨0, 0, 10, 10⟩, ⟨0, 0, 10, 10⟩, ⟨0, 0, 10, 10⟩] := by
    rw [show (2147483650 : Nat) = 2147483646 + 4 from by norm_num, List.replicate_add,
      show List.replicate 4 (⟨0, 0, 10, 10⟩ : MRect) =
        [⟨0, 0, 10, 10⟩, ⟨0, 0, 10, 10⟩, ⟨0, 0, 10, 10⟩, ⟨0, 0, 10, 10⟩] from rfl]
  conv_lhs => rw [hsplitR]
  rw [initThrottle, runRegions_append, hpre]
  simp only
  rw [show (0 : Int) + ((2147483646 : Nat) : Int) = (2147483646 : Int) from by norm_num]
  rw [List.foldl_nil, hsuffix]
  simp only
  rw [show ((100 / (50 : Int))).toNat = 2 from by decide,
    show (2147483650 : Nat) = 2 * 1073741825 from by norm_num,
    chunksUnion_two_replicate]
  intro hcon
  have h1 := congrArg List.length hcon
  rw [List.length_append, List.length_replicate, List.length_replicate,
    List.length_singleton] at h1
  exact absurd h1 (by norm_num)

end Myrtille
